import Mathlib

/-!
Verification of the semantic-model builder of `streamlit_app.py`
(Snowflake Cortex Analyst demo).

Python strings are embedded as `List Char` (abbreviated `Str`), so that the
character-level post-processing of LLM descriptions and the line-level
serialization can be reasoned about directly.  Machine integers do not occur
in the relevant code paths; list lengths are `Nat`.
-/

/-- Strings of the embedded program are lists of characters. -/
abbrev Str := List Char

/-- Coerce a Lean string literal into the embedded string type. -/
def str (s : String) : Str := s.data

/-- Embedding of Python `str.upper()` restricted to ASCII letters, which is
all the catalog type names contain. -/
def upper (s : Str) : Str := s.map Char.toUpper

/-- The fixed temporal type-name set of `show_table_definition_page`
(line 379 of `streamlit_app.py`). -/
def temporalTypes : List Str :=
  [str "DATE", str "DATETIME", str "TIME", str "TIMESTAMP",
   str "TIMESTAMP_LTZ(9)", str "TIMESTAMP_NTZ", str "TIMESTAMP_TZ"]

/-- The fixed textual type-name set (line 389 of `streamlit_app.py`). -/
def textualTypes : List Str :=
  [str "VARCHAR(50)", str "VARCHAR(16777216)", str "VARCHAR(1)",
   str "VARCHAR(10)", str "VARCHAR(20)", str "VARCHAR(30)", str "CHAR",
   str "CHARACTER", str "STRING", str "TEXT", str "BINARY", str "VARBINARY"]

/-- The fixed numeric type-name set (line 399 of `streamlit_app.py`). -/
def numericTypes : List Str :=
  [str "NUMBER", str "DECIMAL", str "NUMERIC", str "INT", str "INTEGER",
   str "BIGINT", str "SMALLINT", str "TINYINT", str "BYTEINT", str "FLOAT",
   str "FLOAT4", str "FLOAT8", str "DOUBLE", str "DOUBLE PRECISION",
   str "REAL"]

/-- Input to the classification loop: one column of the described table,
zipped with its AI-generated description (line 378 of `streamlit_app.py`). -/
structure ClassInput where
  name : Str
  data_type : Str
  description : Str
deriving DecidableEq, Repr

/-- An entry of one of the three variant lists.  All three entry dicts built
at lines 380-405 share the key set and order
`name, expr, description, data_type`. -/
structure ColumnEntry where
  name : Str
  expr : Str
  description : Str
  data_type : Str
deriving DecidableEq, Repr

/-- The three variant lists of a table entry while the classification loop
is running (initialised empty at lines 372-374). -/
structure Draft where
  dimensions : List ColumnEntry
  time_dimensions : List ColumnEntry
  measures : List ColumnEntry
deriving DecidableEq, Repr

/-- The entry appended for one classified column: `name` and `expr` are both
the raw column name, `data_type` is the uppercased declared type. -/
def mkEntry (c : ClassInput) : ColumnEntry :=
  { name := c.name, expr := c.name, description := c.description,
    data_type := upper c.data_type }

/-- One iteration of the classification loop (lines 378-406): three
independent membership tests, in source order temporal, textual, numeric,
each appending to its own list. -/
def classifyStep (acc : Draft) (c : ClassInput) : Draft :=
  let acc1 := if upper c.data_type ∈ temporalTypes then
      { acc with time_dimensions := acc.time_dimensions ++ [mkEntry c] }
    else acc
  let acc2 := if upper c.data_type ∈ textualTypes then
      { acc1 with dimensions := acc1.dimensions ++ [mkEntry c] }
    else acc1
  if upper c.data_type ∈ numericTypes then
    { acc2 with measures := acc2.measures ++ [mkEntry c] }
  else acc2

/-- The whole classification loop over the described columns. -/
def classify (cols : List ClassInput) : Draft :=
  cols.foldl classifyStep ⟨[], [], []⟩

/-- The `base_table` sub-dict of a table entry (lines 367-371). -/
structure BaseTable where
  database : Str
  schema : Str
  table : Str
deriving DecidableEq, Repr

/-- A finished table entry.  The three variant lists are `Option`s because
the source deletes the dict key outright when the list is empty
(lines 408-413); `none` models the absent key. -/
structure TableEntry where
  name : Str
  description : Str
  base_table : BaseTable
  dimensions : Option (List ColumnEntry)
  time_dimensions : Option (List ColumnEntry)
  measures : Option (List ColumnEntry)
deriving DecidableEq, Repr

/-- The root document `yaml_structure`: name, description and the
append-only table sequence (lines 259-263). -/
structure SemanticModel where
  name : Str
  description : Str
  tables : List TableEntry
deriving DecidableEq, Repr

/-- Build one table entry from the selections, the (post-processed) table
description and the classified columns: lines 364-413, including the
deletion of empty variant lists. -/
def buildTableEntry (db sch tbl tdesc : Str) (cols : List ClassInput) :
    TableEntry :=
  let d := classify cols
  { name := tbl, description := tdesc,
    base_table := { database := db, schema := sch, table := tbl },
    dimensions := if d.dimensions = [] then none else some d.dimensions,
    time_dimensions :=
      if d.time_dimensions = [] then none else some d.time_dimensions,
    measures := if d.measures = [] then none else some d.measures }

/-! ### Post-processing of LLM description strings (lines 179 and 203) -/

/-- Alphanumeric in the sense of the regex class `[A-Za-z0-9]`. -/
def isAlnum (c : Char) : Bool :=
  (('A' ≤ c && c ≤ 'Z') || ('a' ≤ c && c ≤ 'z') || ('0' ≤ c && c ≤ '9'))

/-- Whitespace characters removed by Python `str.strip()` (ASCII part). -/
def isPySpace (c : Char) : Bool :=
  c = ' ' || c = '\t' || c = '\n' || c = '\r' || c = '\x0b' || c = '\x0c'

/-- Worker for the regex substitution: the flag records whether the scan is
inside a run of non-alphanumeric characters whose replacement space has
already been emitted. -/
def subNonAlnumAux (inRun : Bool) : Str → Str
  | [] => []
  | c :: rest =>
    if isAlnum c then c :: subNonAlnumAux false rest
    else if inRun then subNonAlnumAux true rest
    else ' ' :: subNonAlnumAux true rest

/-- Embedding of `re.sub('[^A-Za-z0-9]+', ' ', s)`: each maximal run of
non-alphanumeric characters becomes a single space. -/
def subNonAlnum (s : Str) : Str := subNonAlnumAux false s

/-- Embedding of `.replace('"', "")`. -/
def removeQuotes (s : Str) : Str := s.filter (fun c => c ≠ '"')

/-- Left part of Python `str.strip()`. -/
def lstrip (s : Str) : Str := s.dropWhile isPySpace

/-- Right part of Python `str.strip()`. -/
def rstrip (s : Str) : Str := (s.reverse.dropWhile isPySpace).reverse

/-- Embedding of Python `str.strip()`. -/
def pyStrip (s : Str) : Str := rstrip (lstrip s)

/-- Embedding of `.replace('\n', ' ')`. -/
def replaceNL (s : Str) : Str := s.map (fun c => if c = '\n' then ' ' else c)

/-- Embedding of `.replace('\r', ' ')` (applied to the table description at
line 366). -/
def replaceCR (s : Str) : Str := s.map (fun c => if c = '\r' then ' ' else c)

/-- The post-processing applied to a raw LLM completion at lines 179 and
203: `re.sub('[^A-Za-z0-9]+', ' ', raw).replace('"', "").strip()
.replace('\n', ' ')`. -/
def postprocessDescription (raw : Str) : Str :=
  replaceNL (pyStrip (removeQuotes (subNonAlnum raw)))

/-- Embedding of `generate_column_description` after abstracting the catalog
and LLM collaborators: the function returns the post-processed completion
(line 179). -/
def generate_column_description (raw : Str) : Str := postprocessDescription raw

/-- Embedding of `generate_table_description` after abstracting the
collaborators: the function returns the post-processed completion
(line 203). -/
def generate_table_description (raw : Str) : Str := postprocessDescription raw

/-! ### The conversational REST call `send_message` (lines 13-43) -/

/-- The response dict of `_snowflake.send_snow_api_request`: the fields the
function reads are `status` and `content`. -/
structure ApiResponse where
  status : Nat
  content : Str
deriving DecidableEq, Repr

/-- Outcome of `send_message` when it raises: either the explicit
`Exception` of lines 41-43 carrying the failing status and response, or the
decode error `json.loads` itself would raise on malformed content. -/
inductive SendError where
  | failedRequest (status : Nat) (resp : ApiResponse)
  | decodeError
deriving DecidableEq, Repr

/-- Embedding of `send_message` (lines 13-43).  The JSON decoding of the
external `json` library is abstracted as a fallible function `loads`; the
REST call itself is the collaborator that produced `resp`.  Status below
400 returns the parsed content, otherwise the function raises. -/
def send_message (loads : Str → Option α) (resp : ApiResponse) :
    Except SendError α :=
  if resp.status < 400 then
    match loads resp.content with
    | some v => Except.ok v
    | none => Except.error SendError.decodeError
  else
    Except.error (SendError.failedRequest resp.status resp)

/-! ### Session state and the add-table operation (lines 351-416) -/

/-- One row of the `DESCRIBE TABLE` result as used by the handler: the
column name and declared type (lines 357-358) and the `unique key` flag
(line 359, computed but only used by commented-out entry keys). -/
structure DescribedColumn where
  name : Str
  type : Str
  uniqueKey : Bool
deriving DecidableEq, Repr

/-- Abstract error raised by a collaborator call (catalog query error or
LLM call error). -/
structure CollabError where
  message : Str
deriving DecidableEq, Repr

/-- Results of the external collaborator calls the add-table handler makes,
in the abstract: the `DESCRIBE TABLE` catalog call, the per-column LLM
completion (raw response, keyed by column name), the per-column `MIN`/`MAX`
query, and the table-level LLM completion (raw response). -/
structure Collab where
  describe : Except CollabError (List DescribedColumn)
  columnCompletion : Str → Except CollabError Str
  minMax : Str → Except CollabError (Str × Str)
  tableCompletion : Except CollabError Str

/-- The per-session state touched by the add-table handler:
`st.session_state['tables']` (the added-table name list guarding the
ceiling), `st.session_state['yaml_structure']` and
`st.session_state['yaml_str']`. -/
structure SessionState where
  tables : List Str
  yaml_structure : SemanticModel
  yaml_str : Option Str
deriving DecidableEq, Repr

/-- Sequential evaluation of a collaborator call per list element, aborting
at the first error — the list comprehensions of lines 360-361. -/
def traverseExcept (f : α → Except ε β) : List α → Except ε (List β)
  | [] => Except.ok []
  | a :: l =>
    match f a with
    | Except.error e => Except.error e
    | Except.ok b =>
      match traverseExcept f l with
      | Except.error e => Except.error e
      | Except.ok bs => Except.ok (b :: bs)

/-- Zip the described columns with their post-processed descriptions into
classification inputs (the `zip` of line 378). -/
def toClassInputs (cols : List DescribedColumn) (descs : List Str) :
    List ClassInput :=
  (cols.zip descs).map (fun p => ⟨p.1.name, p.1.type, p.2⟩)

/-! ### Serialization of the model to its textual configuration

Modelled from the spec: the `yaml.dump(..., sort_keys=False, indent=2,
width=900)` call at line 415 uses the external PyYAML library, which is not
part of this repository's sources.  Following the spec's description —
"block-style textual configuration format preserving field insertion order
(not alphabetized)", two-space indent, optional sub-sequences omitted when
absent — the serializer below renders the document as a list of lines:
mapping keys in insertion order, sequence items introduced by `- ` at the
indentation of their key, nested fields two spaces deeper, and an empty
top-level table sequence rendered inline as `[]`. -/

/-- Render one column entry as lines, at the given indentation, in dict
insertion order `name, expr, description, data_type`. -/
def serializeColumn (ind : Str) (c : ColumnEntry) : List Str :=
  [ind ++ str "- name: " ++ c.name,
   ind ++ str "  expr: " ++ c.expr,
   ind ++ str "  description: " ++ c.description,
   ind ++ str "  data_type: " ++ c.data_type]

/-- Render an optional variant block (key line plus items) or nothing when
the key is absent. -/
def serializeBlock (key : Str) (b : Option (List ColumnEntry)) : List Str :=
  match b with
  | none => []
  | some cs => key :: cs.flatMap (serializeColumn (str "  "))

/-- Render one table entry as lines, in dict insertion order `name,
description, base_table, dimensions, time_dimensions, measures`. -/
def serializeTable (t : TableEntry) : List Str :=
  [str "- name: " ++ t.name,
   str "  description: " ++ t.description,
   str "  base_table:",
   str "    database: " ++ t.base_table.database,
   str "    schema: " ++ t.base_table.schema,
   str "    table: " ++ t.base_table.table]
  ++ serializeBlock (str "  dimensions:") t.dimensions
  ++ serializeBlock (str "  time_dimensions:") t.time_dimensions
  ++ serializeBlock (str "  measures:") t.measures

/-- Render the whole model as lines, keys in insertion order `name,
description, tables`. -/
def serializeModel (m : SemanticModel) : List Str :=
  [str "name: " ++ m.name, str "description: " ++ m.description]
  ++ (if m.tables = [] then [str "tables: []"]
      else str "tables:" :: m.tables.flatMap serializeTable)

/-- Join lines with newlines into the final text. -/
def joinLines : List Str → Str
  | [] => []
  | [l] => l
  | l :: ls => l ++ '\n' :: joinLines ls

/-- The serialized textual configuration of the model (the `yaml_str` of
line 415). -/
def dumpModel (m : SemanticModel) : Str := joinLines (serializeModel m)

/-! ### The add-table handler itself -/

/-- Embedding of the `Add Table to YAML` branch (lines 351-416), with the
collaborator calls abstracted as `Collab` results.  Mutations happen in
source order: the added-table name list is appended at line 353 before any
fallible collaborator call; the table entry is built and appended, and the
model re-serialized, only after every collaborator call has succeeded.  The
returned pair is the session state as left by the handler together with the
propagated collaborator error, if any; the ceiling branch (line 352 false)
leaves the state untouched and reports nothing. -/
def addTableToYaml (st : SessionState) (db sch tbl : Str) (c : Collab) :
    SessionState × Option CollabError :=
  if st.tables.length < 100 then
    let st1 : SessionState := { st with tables := st.tables ++ [tbl] }
    match c.describe with
    | Except.error e => (st1, some e)
    | Except.ok cols =>
      match traverseExcept
          (fun col => (c.columnCompletion col.name).map
            generate_column_description) cols with
      | Except.error e => (st1, some e)
      | Except.ok descs =>
        match traverseExcept (fun col => c.minMax col.name) cols with
        | Except.error e => (st1, some e)
        | Except.ok _samples =>
          match c.tableCompletion with
          | Except.error e => (st1, some e)
          | Except.ok rawTd =>
            let tdesc :=
              replaceCR (replaceNL (generate_table_description rawTd))
            let entry := buildTableEntry db sch tbl tdesc
              (toClassInputs cols descs)
            let newModel : SemanticModel :=
              { st1.yaml_structure with
                tables := st1.yaml_structure.tables ++ [entry] }
            ({ st1 with yaml_structure := newModel,
                        yaml_str := some (dumpModel newModel) }, none)
  else (st, none)

/-- The session state as initialised by `show_get_started_page`
(lines 255-263): empty added-table list, model with the entered name and
description and no tables, `yaml_str` not yet set. -/
def initSessionState (name description : Str) : SessionState :=
  { tables := [],
    yaml_structure := { name := name, description := description,
                        tables := [] },
    yaml_str := none }

/-! ### Parsing the textual configuration back

Modelled from the spec: the round-trip property of §8 of the spec refers to
re-parsing the serialized configuration (PyYAML `safe_load`, again not part
of this repository's sources).  The parser below is a recursive-descent
reader of the line format produced by the serializer above: it is a total
function on arbitrary line lists, returning `none` on anything that does
not follow the block structure. -/

/-- Does the line start with the given literal text? -/
def lineStarts (pre l : Str) : Bool := decide (l.take pre.length = pre)

/-- Read a `key: value` line: the literal key text (including the trailing
`: `) must open the line; the rest of the line is the value. -/
def parseKV (pre l : Str) : Option Str :=
  if l.take pre.length = pre then some (l.drop pre.length) else none

/-- Read one sequence item holding a column entry: four `key: value` lines
in the fixed order `name, expr, description, data_type`. -/
def parseColumn (ind : Str) : List Str → Option (ColumnEntry × List Str)
  | l1 :: l2 :: l3 :: l4 :: rest =>
    match parseKV (ind ++ str "- name: ") l1,
          parseKV (ind ++ str "  expr: ") l2,
          parseKV (ind ++ str "  description: ") l3,
          parseKV (ind ++ str "  data_type: ") l4 with
    | some n, some e, some d, some dt =>
      some ({ name := n, expr := e, description := d, data_type := dt }, rest)
    | _, _, _, _ => none
  | _ => none

/-- Read column items while the next line opens one; the fuel bounds the
number of items and is instantiated with the line count. -/
def parseColumns (ind : Str) : Nat → List Str → Option (List ColumnEntry × List Str)
  | 0, lines => some ([], lines)
  | fuel + 1, lines =>
    match lines.head? with
    | none => some ([], lines)
    | some l =>
      if lineStarts (ind ++ str "- name: ") l then
        match parseColumn ind lines with
        | none => none
        | some (c, rest) =>
          match parseColumns ind fuel rest with
          | none => none
          | some (cs, r) => some (c :: cs, r)
      else some ([], lines)

/-- Read an optional variant block: when the next line is exactly the key
line, the following column items form the block; otherwise the key was
absent. -/
def parseOptBlock (key : Str) (fuel : Nat) (lines : List Str) :
    Option (Option (List ColumnEntry) × List Str) :=
  match lines with
  | [] => some (none, [])
  | l :: rest =>
    if l = key then
      match parseColumns (str "  ") fuel rest with
      | none => none
      | some (cs, r) => some (some cs, r)
    else some (none, l :: rest)

/-- Read one table item: the six mandatory lines, then the three optional
variant blocks in their fixed order. -/
def parseTable (fuel : Nat) (lines : List Str) :
    Option (TableEntry × List Str) :=
  match lines with
  | l1 :: l2 :: l3 :: l4 :: l5 :: l6 :: rest =>
    match parseKV (str "- name: ") l1, parseKV (str "  description: ") l2,
          parseKV (str "    database: ") l4, parseKV (str "    schema: ") l5,
          parseKV (str "    table: ") l6 with
    | some n, some d, some db, some sch, some tb =>
      if l3 = str "  base_table:" then
        match parseOptBlock (str "  dimensions:") fuel rest with
        | none => none
        | some (dims, rest1) =>
          match parseOptBlock (str "  time_dimensions:") fuel rest1 with
          | none => none
          | some (tds, rest2) =>
            match parseOptBlock (str "  measures:") fuel rest2 with
            | none => none
            | some (ms, rest3) =>
              some ({ name := n, description := d,
                      base_table := { database := db, schema := sch,
                                      table := tb },
                      dimensions := dims, time_dimensions := tds,
                      measures := ms }, rest3)
      else none
    | _, _, _, _, _ => none
  | _ => none

/-- Read table items while the next line opens one. -/
def parseTables : Nat → List Str → Option (List TableEntry × List Str)
  | 0, lines => some ([], lines)
  | fuel + 1, lines =>
    match lines.head? with
    | none => some ([], lines)
    | some l =>
      if lineStarts (str "- name: ") l then
        match parseTable (fuel + 1) lines with
        | none => none
        | some (t, rest) =>
          match parseTables fuel rest with
          | none => none
          | some (ts, r) => some (t :: ts, r)
      else some ([], lines)

/-- Read a whole document from its lines: `name`, `description`, then the
table sequence, which must consume all remaining lines. -/
def parseModel (lines : List Str) : Option SemanticModel :=
  match lines with
  | l1 :: l2 :: l3 :: rest =>
    match parseKV (str "name: ") l1, parseKV (str "description: ") l2 with
    | some n, some d =>
      if l3 = str "tables: []" then
        if rest = [] then some { name := n, description := d, tables := [] }
        else none
      else if l3 = str "tables:" then
        match parseTables rest.length rest with
        | some (ts, []) => some { name := n, description := d, tables := ts }
        | _ => none
      else none
    | _, _ => none
  | _ => none

/-- Split the text back into lines at newline characters. -/
def splitLines (s : Str) : List Str :=
  match s with
  | [] => [[]]
  | c :: rest =>
    if c = '\n' then [] :: splitLines rest
    else
      match splitLines rest with
      | [] => [[c]]
      | h :: t => (c :: h) :: t

/-- Parse the serialized textual configuration back into a document. -/
def loadModel (s : Str) : Option SemanticModel := parseModel (splitLines s)

/-! ### Sequences of successful add-table operations -/

/-- Collaborator results for an add in which every external call succeeds:
plain data instead of `Except` values. -/
structure OkCollab where
  cols : List DescribedColumn
  columnRaw : Str → Str
  minMaxVal : Str → Str × Str
  tableRaw : Str

/-- The collaborator bundle in which every call returns its `OkCollab`
datum. -/
def toCollab (o : OkCollab) : Collab :=
  { describe := Except.ok o.cols,
    columnCompletion := fun n => Except.ok (o.columnRaw n),
    minMax := fun n => Except.ok (o.minMaxVal n),
    tableCompletion := Except.ok o.tableRaw }

/-- One add-table request: the three selections plus the all-successful
collaborator results. -/
structure AddInput where
  db : Str
  sch : Str
  tbl : Str
  ok : OkCollab

/-- The table entry a successful add with these inputs appends. -/
def entryOf (i : AddInput) : TableEntry :=
  buildTableEntry i.db i.sch i.tbl
    (replaceCR (replaceNL (generate_table_description i.ok.tableRaw)))
    (toClassInputs i.ok.cols
      (i.ok.cols.map
        (fun col => generate_column_description (i.ok.columnRaw col.name))))

/-- Run a sequence of add-table operations, keeping the session state the
handler leaves behind after each. -/
def runAdds (st : SessionState) (inputs : List AddInput) : SessionState :=
  inputs.foldl
    (fun s i => (addTableToYaml s i.db i.sch i.tbl (toCollab i.ok)).1) st

/-! ### Predicates and sample values used by the statements below -/

/-- No two adjacent characters are both spaces. -/
def noTwoSpaces (a b : Char) : Prop := ¬(a = ' ' ∧ b = ' ')

/-- No string field of a column entry contains a newline. -/
@[reducible] def entryNoNL (e : ColumnEntry) : Prop :=
  '\n' ∉ e.name ∧ '\n' ∉ e.expr ∧ '\n' ∉ e.description ∧ '\n' ∉ e.data_type

/-- No string inside an optional variant block contains a newline. -/
@[reducible] def blockNoNL (b : Option (List ColumnEntry)) : Prop :=
  ∀ e ∈ b.getD [], entryNoNL e

/-- No string field of a table entry contains a newline. -/
@[reducible] def tableNoNL (t : TableEntry) : Prop :=
  '\n' ∉ t.name ∧ '\n' ∉ t.description ∧ '\n' ∉ t.base_table.database ∧
  '\n' ∉ t.base_table.schema ∧ '\n' ∉ t.base_table.table ∧
  blockNoNL t.dimensions ∧ blockNoNL t.time_dimensions ∧ blockNoNL t.measures

/-- No string field anywhere in the model contains a newline (such a value
would break the line structure of any textual configuration format). -/
@[reducible] def modelNoNL (m : SemanticModel) : Prop :=
  '\n' ∉ m.name ∧ '\n' ∉ m.description ∧ ∀ t ∈ m.tables, tableNoNL t

/-- Sample described columns exercising all three classifications plus an
unclassifiable type. -/
def sampleCols : List ClassInput :=
  [⟨str "ID", str "NUMBER", str "d1"⟩,
   ⟨str "NAME", str "VARCHAR(50)", str "d2"⟩,
   ⟨str "CREATED_AT", str "timestamp_ntz", str "d3"⟩,
   ⟨str "GEO", str "GEOGRAPHY", str "d4"⟩]

/-- A collaborator bundle whose catalog describe call fails. -/
def failCollab : Collab :=
  { describe := Except.error ⟨str "describe failed"⟩,
    columnCompletion := fun _ => Except.ok [],
    minMax := fun _ => Except.ok ([], []),
    tableCompletion := Except.ok [] }

/-- All-successful sample collaborator results. -/
def sampleOk : OkCollab :=
  { cols := [⟨str "ID", str "NUMBER", false⟩, ⟨str "TS", str "TIMESTAMP", true⟩],
    columnRaw := fun _ => str "A column.",
    minMaxVal := fun _ => (str "0", str "9"),
    tableRaw := str "A table." }

/-- One sample add-table request. -/
def sampleAdd : AddInput :=
  { db := str "DB", sch := str "SCH", tbl := str "T", ok := sampleOk }

/-- A sample dimension entry. -/
def sampleDim : ColumnEntry :=
  ⟨str "NAME", str "NAME", str "customer name", str "VARCHAR(50)"⟩

/-- A sample measure entry. -/
def sampleMeasure : ColumnEntry :=
  ⟨str "ID", str "ID", str "the id", str "NUMBER"⟩

/-- A sample table entry with one variant block absent. -/
def sampleTable : TableEntry :=
  { name := str "T", description := str "a table",
    base_table := { database := str "DB", schema := str "SCH",
                    table := str "T" },
    dimensions := some [sampleDim],
    time_dimensions := none,
    measures := some [sampleMeasure] }

/-- A sample semantic model. -/
def sampleModel : SemanticModel :=
  { name := str "m", description := str "demo model",
    tables := [sampleTable] }

/-- The session state a fully successful add-table operation leaves
behind. -/
def okResultState (st : SessionState) (i : AddInput) : SessionState :=
  { tables := st.tables ++ [i.tbl],
    yaml_structure :=
      { name := st.yaml_structure.name,
        description := st.yaml_structure.description,
        tables := st.yaml_structure.tables ++ [entryOf i] },
    yaml_str := some (dumpModel
      { name := st.yaml_structure.name,
        description := st.yaml_structure.description,
        tables := st.yaml_structure.tables ++ [entryOf i] }) }

/-- Is the computation outcome an exception? -/
def isError : Except ε α → Bool
  | Except.error _ => true
  | Except.ok _ => false

/-- Total column-entry count of a finished table entry, a lower bound for
the parsing fuel its blocks need. -/
def colCountT (t : TableEntry) : Nat :=
  (t.dimensions.getD []).length + (t.time_dimensions.getD []).length +
    (t.measures.getD []).length

/-- A fuel bound sufficient to parse a serialized table sequence. -/
def tablesFuel : List TableEntry → Nat
  | [] => 0
  | t :: ts => 1 + colCountT t + tablesFuel ts

/-! ### Classification lemmas -/

theorem classifyStep_time (acc : Draft) (c : ClassInput) :
    (classifyStep acc c).time_dimensions =
      if upper c.data_type ∈ temporalTypes then
        acc.time_dimensions ++ [mkEntry c]
      else acc.time_dimensions := by
  unfold classifyStep
  by_cases h1 : upper c.data_type ∈ temporalTypes <;>
    by_cases h2 : upper c.data_type ∈ textualTypes <;>
      by_cases h3 : upper c.data_type ∈ numericTypes <;>
        simp [h1, h2, h3]

theorem classifyStep_dims (acc : Draft) (c : ClassInput) :
    (classifyStep acc c).dimensions =
      if upper c.data_type ∈ textualTypes then
        acc.dimensions ++ [mkEntry c]
      else acc.dimensions := by
  unfold classifyStep
  by_cases h1 : upper c.data_type ∈ temporalTypes <;>
    by_cases h2 : upper c.data_type ∈ textualTypes <;>
      by_cases h3 : upper c.data_type ∈ numericTypes <;>
        simp [h1, h2, h3]

theorem classifyStep_measures (acc : Draft) (c : ClassInput) :
    (classifyStep acc c).measures =
      if upper c.data_type ∈ numericTypes then
        acc.measures ++ [mkEntry c]
      else acc.measures := by
  unfold classifyStep
  by_cases h1 : upper c.data_type ∈ temporalTypes <;>
    by_cases h2 : upper c.data_type ∈ textualTypes <;>
      by_cases h3 : upper c.data_type ∈ numericTypes <;>
        simp [h1, h2, h3]

theorem classify_go_time (cols : List ClassInput) (acc : Draft) :
    (cols.foldl classifyStep acc).time_dimensions =
      acc.time_dimensions ++
        (cols.filter
          (fun c => decide (upper c.data_type ∈ temporalTypes))).map mkEntry := by
  induction cols generalizing acc with
  | nil => simp
  | cons c cs ih =>
    simp only [List.foldl_cons, List.filter_cons]
    rw [ih]
    by_cases h : upper c.data_type ∈ temporalTypes <;>
      simp [classifyStep_time, h]

theorem classify_go_dims (cols : List ClassInput) (acc : Draft) :
    (cols.foldl classifyStep acc).dimensions =
      acc.dimensions ++
        (cols.filter
          (fun c => decide (upper c.data_type ∈ textualTypes))).map mkEntry := by
  induction cols generalizing acc with
  | nil => simp
  | cons c cs ih =>
    simp only [List.foldl_cons, List.filter_cons]
    rw [ih]
    by_cases h : upper c.data_type ∈ textualTypes <;>
      simp [classifyStep_dims, h]

theorem classify_go_measures (cols : List ClassInput) (acc : Draft) :
    (cols.foldl classifyStep acc).measures =
      acc.measures ++
        (cols.filter
          (fun c => decide (upper c.data_type ∈ numericTypes))).map mkEntry := by
  induction cols generalizing acc with
  | nil => simp
  | cons c cs ih =>
    simp only [List.foldl_cons, List.filter_cons]
    rw [ih]
    by_cases h : upper c.data_type ∈ numericTypes <;>
      simp [classifyStep_measures, h]

theorem classify_time (cols : List ClassInput) :
    (classify cols).time_dimensions =
      (cols.filter
        (fun c => decide (upper c.data_type ∈ temporalTypes))).map mkEntry := by
  simpa [classify] using classify_go_time cols ⟨[], [], []⟩

theorem classify_dims (cols : List ClassInput) :
    (classify cols).dimensions =
      (cols.filter
        (fun c => decide (upper c.data_type ∈ textualTypes))).map mkEntry := by
  simpa [classify] using classify_go_dims cols ⟨[], [], []⟩

theorem classify_measures (cols : List ClassInput) :
    (classify cols).measures =
      (cols.filter
        (fun c => decide (upper c.data_type ∈ numericTypes))).map mkEntry := by
  simpa [classify] using classify_go_measures cols ⟨[], [], []⟩

theorem exists_of_mem_time (cols : List ClassInput) (e : ColumnEntry)
    (h : e ∈ (classify cols).time_dimensions) :
    ∃ c ∈ cols, e = mkEntry c ∧ upper c.data_type ∈ temporalTypes := by
  rw [classify_time] at h
  simp only [List.mem_map, List.mem_filter, decide_eq_true_eq] at h
  obtain ⟨c, ⟨hc, hm⟩, he⟩ := h
  exact ⟨c, hc, he.symm, hm⟩

theorem exists_of_mem_dims (cols : List ClassInput) (e : ColumnEntry)
    (h : e ∈ (classify cols).dimensions) :
    ∃ c ∈ cols, e = mkEntry c ∧ upper c.data_type ∈ textualTypes := by
  rw [classify_dims] at h
  simp only [List.mem_map, List.mem_filter, decide_eq_true_eq] at h
  obtain ⟨c, ⟨hc, hm⟩, he⟩ := h
  exact ⟨c, hc, he.symm, hm⟩

theorem exists_of_mem_measures (cols : List ClassInput) (e : ColumnEntry)
    (h : e ∈ (classify cols).measures) :
    ∃ c ∈ cols, e = mkEntry c ∧ upper c.data_type ∈ numericTypes := by
  rw [classify_measures] at h
  simp only [List.mem_map, List.mem_filter, decide_eq_true_eq] at h
  obtain ⟨c, ⟨hc, hm⟩, he⟩ := h
  exact ⟨c, hc, he.symm, hm⟩

theorem data_type_of_mem_time (cols : List ClassInput) (e : ColumnEntry)
    (h : e ∈ (classify cols).time_dimensions) :
    e.data_type ∈ temporalTypes := by
  obtain ⟨c, _, he, hm⟩ := exists_of_mem_time cols e h
  simpa [he, mkEntry] using hm

theorem data_type_of_mem_dims (cols : List ClassInput) (e : ColumnEntry)
    (h : e ∈ (classify cols).dimensions) :
    e.data_type ∈ textualTypes := by
  obtain ⟨c, _, he, hm⟩ := exists_of_mem_dims cols e h
  simpa [he, mkEntry] using hm

theorem data_type_of_mem_measures (cols : List ClassInput) (e : ColumnEntry)
    (h : e ∈ (classify cols).measures) :
    e.data_type ∈ numericTypes := by
  obtain ⟨c, _, he, hm⟩ := exists_of_mem_measures cols e h
  simpa [he, mkEntry] using hm

theorem temporal_textual_disjoint : ∀ s ∈ temporalTypes, s ∉ textualTypes := by
  decide

theorem temporal_numeric_disjoint : ∀ s ∈ temporalTypes, s ∉ numericTypes := by
  decide

theorem textual_numeric_disjoint : ∀ s ∈ textualTypes, s ∉ numericTypes := by
  decide

theorem buildTableEntry_dims_getD (db sch tbl td : Str)
    (cols : List ClassInput) :
    ((buildTableEntry db sch tbl td cols).dimensions.getD []) =
      (classify cols).dimensions := by
  unfold buildTableEntry
  by_cases h : (classify cols).dimensions = [] <;> simp [h]

theorem buildTableEntry_time_getD (db sch tbl td : Str)
    (cols : List ClassInput) :
    ((buildTableEntry db sch tbl td cols).time_dimensions.getD []) =
      (classify cols).time_dimensions := by
  unfold buildTableEntry
  by_cases h : (classify cols).time_dimensions = [] <;> simp [h]

theorem buildTableEntry_measures_getD (db sch tbl td : Str)
    (cols : List ClassInput) :
    ((buildTableEntry db sch tbl td cols).measures.getD []) =
      (classify cols).measures := by
  unfold buildTableEntry
  by_cases h : (classify cols).measures = [] <;> simp [h]

theorem countP_map_mkEntry_filter (p : ColumnEntry → Bool)
    (q : ClassInput → Bool) (l : List ClassInput) :
    ((l.filter q).map mkEntry).countP p =
      l.countP (fun x => p (mkEntry x) && q x) := by
  induction l with
  | nil => simp
  | cons a l ih =>
    by_cases hq : q a <;> by_cases hp : p (mkEntry a) <;>
      simp [List.filter_cons, hq, List.countP_cons, hp, ih]

theorem countP_eq_of_forall (l : List α) (p q : α → Bool)
    (h : ∀ a ∈ l, p a = q a) : l.countP p = l.countP q := by
  induction l with
  | nil => simp
  | cons a l ih =>
    simp only [List.countP_cons, h a (List.mem_cons_self a l)]
    rw [ih (fun b hb => h b (List.mem_cons_of_mem a hb))]

/-- C4: a column entry never appears in two of the three variant lists of
the same table entry: the three recognized-type sets are pairwise disjoint,
so the membership tests (run in the fixed order temporal, textual, numeric)
admit each column into at most one list. -/
theorem classification_lists_pairwise_disjoint (cols : List ClassInput)
    (e : ColumnEntry) :
    ¬(e ∈ (classify cols).dimensions ∧ e ∈ (classify cols).time_dimensions) ∧
    ¬(e ∈ (classify cols).dimensions ∧ e ∈ (classify cols).measures) ∧
    ¬(e ∈ (classify cols).time_dimensions ∧ e ∈ (classify cols).measures) := by
  refine ⟨?_, ?_, ?_⟩ <;> rintro ⟨h1, h2⟩
  · exact temporal_textual_disjoint e.data_type
      (data_type_of_mem_time cols e h2) (data_type_of_mem_dims cols e h1)
  · exact textual_numeric_disjoint e.data_type
      (data_type_of_mem_dims cols e h1) (data_type_of_mem_measures cols e h2)
  · exact temporal_numeric_disjoint e.data_type
      (data_type_of_mem_time cols e h1) (data_type_of_mem_measures cols e h2)

theorem classification_lists_pairwise_disjoint_witness :
    ¬(mkEntry ⟨str "ID", str "NUMBER", str "d1"⟩ ∈ (classify sampleCols).dimensions ∧
      mkEntry ⟨str "ID", str "NUMBER", str "d1"⟩ ∈ (classify sampleCols).time_dimensions) ∧
    ¬(mkEntry ⟨str "ID", str "NUMBER", str "d1"⟩ ∈ (classify sampleCols).dimensions ∧
      mkEntry ⟨str "ID", str "NUMBER", str "d1"⟩ ∈ (classify sampleCols).measures) ∧
    ¬(mkEntry ⟨str "ID", str "NUMBER", str "d1"⟩ ∈ (classify sampleCols).time_dimensions ∧
      mkEntry ⟨str "ID", str "NUMBER", str "d1"⟩ ∈ (classify sampleCols).measures) :=
  classification_lists_pairwise_disjoint sampleCols
    (mkEntry ⟨str "ID", str "NUMBER", str "d1"⟩)

/-- C5: each column whose declared type uppercases into the temporal set
produces exactly one time-dimension entry, whose `data_type` is the
uppercased input type: the time-dimension list is exactly the map of the
entry constructor over the temporal columns in order. -/
theorem temporal_column_time_dimension (cols : List ClassInput)
    (c : ClassInput) (h1 : c ∈ cols)
    (h2 : upper c.data_type ∈ temporalTypes) :
    (classify cols).time_dimensions =
      (cols.filter
        (fun x => decide (upper x.data_type ∈ temporalTypes))).map mkEntry ∧
    mkEntry c ∈ (classify cols).time_dimensions ∧
    (classify cols).time_dimensions.countP (fun e => decide (e = mkEntry c)) =
      cols.countP (fun x => decide (mkEntry x = mkEntry c)) ∧
    (mkEntry c).data_type = upper c.data_type := by
  refine ⟨classify_time cols, ?_, ?_, rfl⟩
  · rw [classify_time]
    exact List.mem_map_of_mem mkEntry
      (List.mem_filter.mpr ⟨h1, by simpa using h2⟩)
  · rw [classify_time, countP_map_mkEntry_filter]
    apply countP_eq_of_forall
    intro x _
    by_cases hx : mkEntry x = mkEntry c
    · have hdt : upper x.data_type = upper c.data_type := by
        have := congrArg ColumnEntry.data_type hx
        simpa [mkEntry] using this
      simp [hx, hdt, h2]
    · simp [hx]

theorem temporal_column_time_dimension_witness :
    ((⟨str "CREATED_AT", str "timestamp_ntz", str "d3"⟩ : ClassInput) ∈ sampleCols ∧
     upper (str "timestamp_ntz") ∈ temporalTypes) ∧
    ((classify sampleCols).time_dimensions =
      (sampleCols.filter
        (fun x => decide (upper x.data_type ∈ temporalTypes))).map mkEntry ∧
     mkEntry ⟨str "CREATED_AT", str "timestamp_ntz", str "d3"⟩ ∈
       (classify sampleCols).time_dimensions ∧
     (classify sampleCols).time_dimensions.countP
        (fun e => decide (e = mkEntry ⟨str "CREATED_AT", str "timestamp_ntz", str "d3"⟩)) =
       sampleCols.countP
        (fun x => decide (mkEntry x = mkEntry ⟨str "CREATED_AT", str "timestamp_ntz", str "d3"⟩)) ∧
     (mkEntry ⟨str "CREATED_AT", str "timestamp_ntz", str "d3"⟩).data_type =
       upper (str "timestamp_ntz")) :=
  ⟨⟨by decide, by decide⟩,
   temporal_column_time_dimension sampleCols
     ⟨str "CREATED_AT", str "timestamp_ntz", str "d3"⟩ (by decide) (by decide)⟩

/-- C3: a column whose uppercased declared type is in none of the three
classification sets is absent from all three variant lists of the produced
table entry; classification is a total function, so no error or warning
accompanies the drop. -/
theorem unrecognized_type_dropped (db sch tbl td : Str)
    (cols : List ClassInput) (c : ClassInput) (h1 : c ∈ cols)
    (h2 : upper c.data_type ∉ temporalTypes)
    (h3 : upper c.data_type ∉ textualTypes)
    (h4 : upper c.data_type ∉ numericTypes) :
    mkEntry c ∉ ((buildTableEntry db sch tbl td cols).dimensions.getD []) ∧
    mkEntry c ∉ ((buildTableEntry db sch tbl td cols).time_dimensions.getD []) ∧
    mkEntry c ∉ ((buildTableEntry db sch tbl td cols).measures.getD []) := by
  rw [buildTableEntry_dims_getD, buildTableEntry_time_getD,
    buildTableEntry_measures_getD]
  refine ⟨fun h => ?_, fun h => ?_, fun h => ?_⟩
  · exact h3 (by simpa [mkEntry] using data_type_of_mem_dims cols (mkEntry c) h)
  · exact h2 (by simpa [mkEntry] using data_type_of_mem_time cols (mkEntry c) h)
  · exact h4
      (by simpa [mkEntry] using data_type_of_mem_measures cols (mkEntry c) h)

theorem unrecognized_type_dropped_witness :
    ((⟨str "GEO", str "GEOGRAPHY", str "d4"⟩ : ClassInput) ∈ sampleCols ∧
     upper (str "GEOGRAPHY") ∉ temporalTypes ∧
     upper (str "GEOGRAPHY") ∉ textualTypes ∧
     upper (str "GEOGRAPHY") ∉ numericTypes) ∧
    (mkEntry ⟨str "GEO", str "GEOGRAPHY", str "d4"⟩ ∉
      ((buildTableEntry (str "DB") (str "SCH") (str "T") (str "td")
        sampleCols).dimensions.getD []) ∧
     mkEntry ⟨str "GEO", str "GEOGRAPHY", str "d4"⟩ ∉
      ((buildTableEntry (str "DB") (str "SCH") (str "T") (str "td")
        sampleCols).time_dimensions.getD []) ∧
     mkEntry ⟨str "GEO", str "GEOGRAPHY", str "d4"⟩ ∉
      ((buildTableEntry (str "DB") (str "SCH") (str "T") (str "td")
        sampleCols).measures.getD [])) :=
  ⟨⟨by decide, by decide, by decide, by decide⟩,
   unrecognized_type_dropped (str "DB") (str "SCH") (str "T") (str "td")
     sampleCols ⟨str "GEO", str "GEOGRAPHY", str "d4"⟩
     (by decide) (by decide) (by decide) (by decide)⟩

/-- C10: every entry emitted into any variant list of a built table entry
has `expr` equal to its `name`, and both equal the raw name of a described
column: the builder never synthesizes a SQL expression distinct from the
column name. -/
theorem entry_expr_is_column_name (db sch tbl td : Str)
    (cols : List ClassInput) (e : ColumnEntry)
    (h : e ∈ ((buildTableEntry db sch tbl td cols).dimensions.getD []) ∨
         e ∈ ((buildTableEntry db sch tbl td cols).time_dimensions.getD []) ∨
         e ∈ ((buildTableEntry db sch tbl td cols).measures.getD [])) :
    e.expr = e.name ∧ e.name ∈ cols.map ClassInput.name ∧
    e.expr ∈ cols.map ClassInput.name := by
  rw [buildTableEntry_dims_getD, buildTableEntry_time_getD,
    buildTableEntry_measures_getD] at h
  have hex : ∃ c ∈ cols, e = mkEntry c := by
    rcases h with h | h | h
    · obtain ⟨c, hc, he, _⟩ := exists_of_mem_dims cols e h
      exact ⟨c, hc, he⟩
    · obtain ⟨c, hc, he, _⟩ := exists_of_mem_time cols e h
      exact ⟨c, hc, he⟩
    · obtain ⟨c, hc, he, _⟩ := exists_of_mem_measures cols e h
      exact ⟨c, hc, he⟩
  obtain ⟨c, hc, he⟩ := hex
  subst he
  exact ⟨rfl, List.mem_map_of_mem ClassInput.name hc,
    List.mem_map_of_mem ClassInput.name hc⟩

theorem entry_expr_is_column_name_witness :
    (mkEntry ⟨str "ID", str "NUMBER", str "d1"⟩ ∈
      ((buildTableEntry (str "DB") (str "SCH") (str "T") (str "td")
        sampleCols).dimensions.getD []) ∨
     mkEntry ⟨str "ID", str "NUMBER", str "d1"⟩ ∈
      ((buildTableEntry (str "DB") (str "SCH") (str "T") (str "td")
        sampleCols).time_dimensions.getD []) ∨
     mkEntry ⟨str "ID", str "NUMBER", str "d1"⟩ ∈
      ((buildTableEntry (str "DB") (str "SCH") (str "T") (str "td")
        sampleCols).measures.getD [])) ∧
    ((mkEntry ⟨str "ID", str "NUMBER", str "d1"⟩).expr =
      (mkEntry ⟨str "ID", str "NUMBER", str "d1"⟩).name ∧
     (mkEntry ⟨str "ID", str "NUMBER", str "d1"⟩).name ∈
       sampleCols.map ClassInput.name ∧
     (mkEntry ⟨str "ID", str "NUMBER", str "d1"⟩).expr ∈
       sampleCols.map ClassInput.name) :=
  ⟨by decide,
   entry_expr_is_column_name (str "DB") (str "SCH") (str "T") (str "td")
     sampleCols (mkEntry ⟨str "ID", str "NUMBER", str "d1"⟩) (by decide)⟩

/-! ### Post-processing lemmas -/

theorem subNonAlnumAux_mem (l : Str) (b : Bool) :
    ∀ c ∈ subNonAlnumAux b l, isAlnum c = true ∨ c = ' ' := by
  induction l generalizing b with
  | nil => simp [subNonAlnumAux]
  | cons a l ih =>
    intro c hc
    cases b with
    | false =>
      by_cases ha : isAlnum a
      · simp [subNonAlnumAux, ha] at hc
        rcases hc with rfl | hc
        · exact Or.inl ha
        · exact ih false c hc
      · simp [subNonAlnumAux, ha] at hc
        rcases hc with rfl | hc
        · exact Or.inr rfl
        · exact ih true c hc
    | true =>
      by_cases ha : isAlnum a
      · simp [subNonAlnumAux, ha] at hc
        rcases hc with rfl | hc
        · exact Or.inl ha
        · exact ih false c hc
      · simp [subNonAlnumAux, ha] at hc
        exact ih true c hc

theorem subNonAlnumAux_true_head (l : Str) :
    ∀ c, (subNonAlnumAux true l).head? = some c → isAlnum c = true := by
  induction l with
  | nil => simp [subNonAlnumAux]
  | cons a l ih =>
    intro c hc
    by_cases ha : isAlnum a
    · simp [subNonAlnumAux, ha] at hc
      exact hc ▸ ha
    · simp [subNonAlnumAux, ha] at hc
      exact ih c hc

theorem subNonAlnumAux_chain (l : Str) (b : Bool) :
    (subNonAlnumAux b l).Chain' noTwoSpaces := by
  induction l generalizing b with
  | nil => simp [subNonAlnumAux]
  | cons a l ih =>
    by_cases ha : isAlnum a
    · simp only [subNonAlnumAux, ha, if_true]
      rw [List.chain'_cons']
      refine ⟨?_, ih false⟩
      intro y _ hy
      rw [hy.1] at ha
      exact absurd ha (by decide)
    · cases b with
      | true =>
        simp only [subNonAlnumAux, ha, if_false, Bool.false_eq_true]
        exact ih true
      | false =>
        simp only [subNonAlnumAux, ha, if_false, Bool.false_eq_true]
        rw [List.chain'_cons']
        refine ⟨?_, ih true⟩
        intro y hy hcontra
        have := subNonAlnumAux_true_head l y hy
        rw [hcontra.2] at this
        exact absurd this (by decide)

theorem removeQuotes_id (s : Str)
    (h : ∀ c ∈ s, isAlnum c = true ∨ c = ' ') : removeQuotes s = s := by
  unfold removeQuotes
  rw [List.filter_eq_self]
  intro a ha
  rcases h a ha with h1 | rfl
  · simp only [ne_eq, decide_eq_true_eq]
    intro hq
    rw [hq] at h1
    exact absurd h1 (by decide)
  · decide

theorem replaceNL_id (s : Str)
    (h : ∀ c ∈ s, isAlnum c = true ∨ c = ' ') : replaceNL s = s := by
  induction s with
  | nil => rfl
  | cons a l ih =>
    have ha := h a (List.mem_cons_self a l)
    have hne : a ≠ '\n' := by
      rintro rfl
      rcases ha with h1 | h1
      · exact absurd h1 (by decide)
      · exact absurd h1 (by decide)
    have ht := ih (fun c hc => h c (List.mem_cons_of_mem a hc))
    simp only [replaceNL, List.map_cons, if_neg hne] at ht ⊢
    rw [ht]

theorem head_dropWhile_not (p : Char → Bool) (l : Str) :
    ∀ c, (l.dropWhile p).head? = some c → p c = false := by
  induction l with
  | nil => simp [List.dropWhile]
  | cons a l ih =>
    intro c hc
    by_cases hp : p a
    · simp only [List.dropWhile, hp, if_true] at hc
      exact ih c hc
    · simp [List.dropWhile, hp] at hc
      rw [← hc]
      exact Bool.of_not_eq_true hp

theorem rstrip_isPre (s : Str) : List.IsPrefix (rstrip s) s := by
  obtain ⟨t, ht⟩ := List.dropWhile_suffix (l := s.reverse) isPySpace
  exact ⟨t.reverse, by rw [rstrip, ← List.reverse_append, ht,
    List.reverse_reverse]⟩

theorem head_pre_eq (l s : Str) (hp : List.IsPrefix l s) (c : Char)
    (h : l.head? = some c) : s.head? = some c := by
  obtain ⟨r, hr⟩ := hp
  cases l with
  | nil => simp at h
  | cons a t =>
    simp only [List.head?_cons, Option.some.injEq] at h
    rw [← hr, List.cons_append, List.head?_cons, h]

theorem pyStrip_head (s : Str) :
    ∀ c, (pyStrip s).head? = some c → isPySpace c = false := by
  intro c hc
  exact head_dropWhile_not isPySpace s
    c (head_pre_eq _ _ (rstrip_isPre (lstrip s)) c hc)

theorem pyStrip_last (s : Str) :
    ∀ c, (pyStrip s).getLast? = some c → isPySpace c = false := by
  intro c hc
  rw [pyStrip, rstrip, List.getLast?_reverse] at hc
  exact head_dropWhile_not isPySpace (lstrip s).reverse c hc

theorem pyStrip_sublist (s : Str) : List.Sublist (pyStrip s) s :=
  ((rstrip_isPre (lstrip s)).sublist).trans (List.dropWhile_sublist isPySpace)

theorem pyStrip_chain (s : Str) (h : s.Chain' noTwoSpaces) :
    (pyStrip s).Chain' noTwoSpaces :=
  List.Chain'.prefix (h.suffix (List.dropWhile_suffix isPySpace))
    (rstrip_isPre (lstrip s))

/-- C8: every post-processed LLM description — column and table alike —
consists only of alphanumeric characters and single interior spaces, with
no leading or trailing whitespace. -/
theorem description_postprocessing_clean (raw : Str) :
    (∀ c ∈ generate_column_description raw, isAlnum c = true ∨ c = ' ') ∧
    (generate_column_description raw).Chain' noTwoSpaces ∧
    (generate_column_description raw).head? ≠ some ' ' ∧
    (generate_column_description raw).getLast? ≠ some ' ' ∧
    generate_table_description raw = generate_column_description raw := by
  have hsub := subNonAlnumAux_mem raw false
  have hq : removeQuotes (subNonAlnum raw) = subNonAlnum raw :=
    removeQuotes_id _ hsub
  have hmem : ∀ c ∈ pyStrip (subNonAlnum raw), isAlnum c = true ∨ c = ' ' :=
    fun c hc => hsub c ((pyStrip_sublist (subNonAlnum raw)).mem hc)
  have hrepl : replaceNL (pyStrip (subNonAlnum raw)) =
      pyStrip (subNonAlnum raw) := replaceNL_id _ hmem
  have hfin : generate_column_description raw =
      pyStrip (subNonAlnum raw) := by
    rw [generate_column_description, postprocessDescription, hq, hrepl]
  refine ⟨?_, ?_, ?_, ?_, rfl⟩
  · rw [hfin]; exact hmem
  · rw [hfin]
    exact pyStrip_chain _ (subNonAlnumAux_chain raw false)
  · rw [hfin]
    intro hc
    have := pyStrip_head (subNonAlnum raw) ' ' hc
    exact absurd this (by decide)
  · rw [hfin]
    intro hc
    have := pyStrip_last (subNonAlnum raw) ' ' hc
    exact absurd this (by decide)

/-! ### The REST call status check -/

/-- C7: for a response whose content parses, `send_message` returns the
JSON-parsed content exactly when the status is below 400 and raises exactly
when the status is 400 or greater; the function makes no retry, being a
single evaluation of the response. -/
theorem send_message_status_check {α : Type} (loads : Str → Option α)
    (resp : ApiResponse) (v : α) (hv : loads resp.content = some v) :
    (send_message loads resp = Except.ok v ↔ resp.status < 400) ∧
    (isError (send_message loads resp) = true ↔ 400 ≤ resp.status) := by
  unfold send_message
  by_cases h : resp.status < 400
  · rw [if_pos h, hv]
    refine ⟨⟨fun _ => h, fun _ => rfl⟩, ?_⟩
    simp [isError]
    omega
  · rw [if_neg h]
    constructor
    · constructor
      · intro hc
        cases hc
      · intro hc
        exact absurd hc h
    · simp [isError]
      omega

theorem send_message_status_check_witness :
    ((fun s => some s) (str "body") = some (str "body")) ∧
    ((send_message (fun s => some s) ⟨200, str "body"⟩ =
        Except.ok (str "body") ↔ (200 : Nat) < 400) ∧
     (isError (send_message (fun s => some s) ⟨200, str "body"⟩) = true ↔
        (400 : Nat) ≤ 200)) :=
  ⟨rfl, send_message_status_check (fun s => some s) ⟨200, str "body"⟩
    (str "body") rfl⟩

/-! ### Failure behaviour of the add-table handler -/

/-- C1 (counterexample): a describe failure during an add-table operation
does not leave the session state unchanged — the added-tables name list
used for the ceiling check has already been appended (line 353 runs before
any collaborator call), so the claimed all-or-nothing mutation of the whole
session state is false. -/
theorem failed_add_mutates_name_list :
    (addTableToYaml (initSessionState (str "m") (str "d")) (str "DB")
        (str "SCH") (str "T") failCollab).2 =
      some ⟨str "describe failed"⟩ ∧
    (addTableToYaml (initSessionState (str "m") (str "d")) (str "DB")
        (str "SCH") (str "T") failCollab).1 ≠
      initSessionState (str "m") (str "d") ∧
    (addTableToYaml (initSessionState (str "m") (str "d")) (str "DB")
        (str "SCH") (str "T") failCollab).1.tables = [str "T"] ∧
    (initSessionState (str "m") (str "d")).tables = [] := by
  decide

/-- C1 (amended): when an add-table operation fails partway (describe,
per-column description, min/max or table description), the semantic model
and the serialized text are left unchanged — no partially-appended table
entry appears — but the added-tables name list has already been appended
with the selected table name. -/
theorem failed_add_preserves_model (st : SessionState) (db sch tbl : Str)
    (c : Collab) (e : CollabError)
    (hcap : st.tables.length < 100)
    (hfail : (addTableToYaml st db sch tbl c).2 = some e) :
    (addTableToYaml st db sch tbl c).1.yaml_structure = st.yaml_structure ∧
    (addTableToYaml st db sch tbl c).1.yaml_str = st.yaml_str ∧
    (addTableToYaml st db sch tbl c).1.tables = st.tables ++ [tbl] := by
  revert hfail
  unfold addTableToYaml
  rw [if_pos hcap]
  rcases hd : c.describe with e2 | cols <;> simp only [hd]
  · intro _
    simp
  · rcases ht1 : traverseExcept
        (fun col => (c.columnCompletion col.name).map
          generate_column_description) cols with e2 | descs <;>
      simp only [ht1]
    · intro _
      simp
    · rcases ht2 : traverseExcept (fun col => c.minMax col.name) cols
        with e2 | samples <;> simp only [ht2]
      · intro _
        simp
      · rcases ht3 : c.tableCompletion with e2 | rawTd <;> simp only [ht3]
        · intro _
          simp
        · intro hfail
          exact Option.noConfusion hfail

theorem failed_add_preserves_model_witness :
    ((initSessionState (str "m") (str "d")).tables.length < 100 ∧
     (addTableToYaml (initSessionState (str "m") (str "d")) (str "DB")
        (str "SCH") (str "T") failCollab).2 =
       some ⟨str "describe failed"⟩) ∧
    ((addTableToYaml (initSessionState (str "m") (str "d")) (str "DB")
        (str "SCH") (str "T") failCollab).1.yaml_structure =
      (initSessionState (str "m") (str "d")).yaml_structure ∧
     (addTableToYaml (initSessionState (str "m") (str "d")) (str "DB")
        (str "SCH") (str "T") failCollab).1.yaml_str =
      (initSessionState (str "m") (str "d")).yaml_str ∧
     (addTableToYaml (initSessionState (str "m") (str "d")) (str "DB")
        (str "SCH") (str "T") failCollab).1.tables =
      (initSessionState (str "m") (str "d")).tables ++ [str "T"]) :=
  ⟨⟨by decide, rfl⟩,
   failed_add_preserves_model (initSessionState (str "m") (str "d"))
     (str "DB") (str "SCH") (str "T") failCollab ⟨str "describe failed"⟩
     (by decide) rfl⟩

/-! ### Sequences of successful adds -/

theorem traverseExcept_ok (g : α → β) (l : List α) :
    traverseExcept (fun a => Except.ok (ε := ε) (g a)) l =
      Except.ok (l.map g) := by
  induction l with
  | nil => rfl
  | cons a l ih => simp [traverseExcept, ih]

theorem addTable_ok (st : SessionState) (i : AddInput)
    (h : st.tables.length < 100) :
    addTableToYaml st i.db i.sch i.tbl (toCollab i.ok) =
      (okResultState st i, none) := by
  unfold addTableToYaml
  rw [if_pos h]
  simp only [toCollab, Except.map, traverseExcept_ok]
  simp [okResultState, entryOf]

theorem runAdds_spec (inputs : List AddInput) (st : SessionState)
    (h : st.tables.length + inputs.length ≤ 100) :
    (runAdds st inputs).tables = st.tables ++ inputs.map AddInput.tbl ∧
    (runAdds st inputs).yaml_structure.name = st.yaml_structure.name ∧
    (runAdds st inputs).yaml_structure.description =
      st.yaml_structure.description ∧
    (runAdds st inputs).yaml_structure.tables =
      st.yaml_structure.tables ++ inputs.map entryOf := by
  induction inputs generalizing st with
  | nil => simp [runAdds]
  | cons i is ih =>
    have hlt : st.tables.length < 100 := by
      simp only [List.length_cons] at h
      omega
    have hstep := addTable_ok st i hlt
    have hlen2 : (okResultState st i).tables.length + is.length ≤ 100 := by
      simp only [okResultState, List.length_append, List.length_singleton]
      simp only [List.length_cons] at h
      omega
    have ihr := ih (okResultState st i) hlen2
    simp only [runAdds, List.foldl_cons, hstep] at *
    refine ⟨?_, ?_, ?_, ?_⟩
    · rw [ihr.1]
      simp [okResultState]
    · rw [ihr.2.1]
      simp [okResultState]
    · rw [ihr.2.2.1]
      simp [okResultState]
    · rw [ihr.2.2.2]
      simp [okResultState]

/-- C2: starting from a fresh session, N successful add-table operations
(N at most 100) produce a model table sequence of length N holding the
built entries in insertion order with no deduplication (duplicate inputs
produce duplicate entries); once 100 tables have been added, a further add
returns the state unchanged and reports no error. -/
theorem add_table_sequence (name desc : Str) (inputs : List AddInput)
    (h : inputs.length ≤ 100) (db sch tbl : Str) (c : Collab) :
    (runAdds (initSessionState name desc) inputs).yaml_structure.tables =
      inputs.map entryOf ∧
    (runAdds (initSessionState name desc) inputs).tables =
      inputs.map AddInput.tbl ∧
    (inputs.length = 100 →
      addTableToYaml (runAdds (initSessionState name desc) inputs)
          db sch tbl c =
        (runAdds (initSessionState name desc) inputs, none)) := by
  have hrun := runAdds_spec inputs (initSessionState name desc)
    (by simpa [initSessionState] using h)
  refine ⟨by simpa [initSessionState] using hrun.2.2.2,
    by simpa [initSessionState] using hrun.1, ?_⟩
  intro h100
  have hlen : (runAdds (initSessionState name desc) inputs).tables.length =
      100 := by
    rw [hrun.1]
    simp [initSessionState, h100]
  unfold addTableToYaml
  rw [if_neg (by omega)]

theorem add_table_sequence_witness :
    (([sampleAdd, sampleAdd] : List AddInput).length ≤ 100) ∧
    ((runAdds (initSessionState (str "m") (str "d"))
        [sampleAdd, sampleAdd]).yaml_structure.tables =
      [sampleAdd, sampleAdd].map entryOf ∧
     (runAdds (initSessionState (str "m") (str "d"))
        [sampleAdd, sampleAdd]).tables =
      [sampleAdd, sampleAdd].map AddInput.tbl ∧
     (([sampleAdd, sampleAdd] : List AddInput).length = 100 →
       addTableToYaml
           (runAdds (initSessionState (str "m") (str "d"))
             [sampleAdd, sampleAdd]) (str "DB2") (str "SCH2") (str "T2")
           failCollab =
         (runAdds (initSessionState (str "m") (str "d"))
           [sampleAdd, sampleAdd], none))) :=
  ⟨by decide,
   add_table_sequence (str "m") (str "d") [sampleAdd, sampleAdd] (by decide)
     (str "DB2") (str "SCH2") (str "T2") failCollab⟩

/-! ### Serialized key lines -/

theorem ne_of_getElem (k l : Str) (i : Nat) (a b : Char)
    (hk : k[i]? = some a) (hl : l[i]? = some b) (hab : a ≠ b) : k ≠ l := by
  intro he
  subst he
  rw [hk] at hl
  exact hab (Option.some.inj hl)

theorem serializeColumn_getElem2 (c : ColumnEntry) (l : Str)
    (h : l ∈ serializeColumn (str "  ") c) :
    l[2]? = some '-' ∨ l[2]? = some ' ' := by
  simp only [serializeColumn, List.mem_cons, List.not_mem_nil, or_false]
    at h
  rcases h with h | h | h | h <;> subst h
  · left; rfl
  · right; rfl
  · right; rfl
  · right; rfl

theorem key_ne_col_line (key : Str)
    (hk1 : key[2]? ≠ some '-') (hk2 : key[2]? ≠ some ' ')
    (c : ColumnEntry) (l : Str) (h : l ∈ serializeColumn (str "  ") c) :
    key ≠ l := by
  intro he
  rcases serializeColumn_getElem2 c l h with h2 | h2
  · exact hk1 (he ▸ h2)
  · exact hk2 (he ▸ h2)

theorem mem_own_block (key : Str) (b : Option (List ColumnEntry)) :
    key ∈ serializeBlock key b ↔ b ≠ none := by
  cases b with
  | none => simp [serializeBlock]
  | some cs => simp [serializeBlock]

theorem not_mem_other_block (key key2 : Str) (hne : key ≠ key2)
    (hk1 : key[2]? ≠ some '-') (hk2 : key[2]? ≠ some ' ')
    (b : Option (List ColumnEntry)) : key ∉ serializeBlock key2 b := by
  cases b with
  | none => simp [serializeBlock]
  | some cs =>
    simp only [serializeBlock, List.mem_cons]
    rintro (h | h)
    · exact hne h
    · simp only [List.mem_flatMap] at h
      obtain ⟨c, _, hl⟩ := h
      exact key_ne_col_line key hk1 hk2 c key hl rfl

theorem dims_key_mem (t : TableEntry) :
    (str "  dimensions:") ∈ serializeTable t ↔ t.dimensions ≠ none := by
  constructor
  · intro h
    simp only [serializeTable, List.mem_append, List.mem_cons,
      List.not_mem_nil, or_false] at h
    rcases h with (((h | h | h | h | h | h) | h) | h) | h
    · exact absurd h (ne_of_getElem (str "  dimensions:")
        (str "- name: " ++ t.name) 0 ' ' '-' rfl rfl (by decide))
    · exact absurd h (ne_of_getElem (str "  dimensions:")
        (str "  description: " ++ t.description) 3 'i' 'e' rfl rfl
        (by decide))
    · exact absurd h (by decide)
    · exact absurd h (ne_of_getElem (str "  dimensions:")
        (str "    database: " ++ t.base_table.database) 2 'd' ' '
        rfl rfl (by decide))
    · exact absurd h (ne_of_getElem (str "  dimensions:")
        (str "    schema: " ++ t.base_table.schema) 2 'd' ' '
        rfl rfl (by decide))
    · exact absurd h (ne_of_getElem (str "  dimensions:")
        (str "    table: " ++ t.base_table.table) 2 'd' ' '
        rfl rfl (by decide))
    · exact (mem_own_block _ _).mp h
    · exact absurd h (not_mem_other_block (str "  dimensions:")
        (str "  time_dimensions:") (by decide) (by decide) (by decide)
        t.time_dimensions)
    · exact absurd h (not_mem_other_block (str "  dimensions:")
        (str "  measures:") (by decide) (by decide) (by decide)
        t.measures)
  · intro h
    simp only [serializeTable, List.mem_append]
    exact Or.inl (Or.inl (Or.inr ((mem_own_block _ _).mpr h)))
theorem time_key_mem (t : TableEntry) :
    (str "  time_dimensions:") ∈ serializeTable t ↔ t.time_dimensions ≠ none := by
  constructor
  · intro h
    simp only [serializeTable, List.mem_append, List.mem_cons,
      List.not_mem_nil, or_false] at h
    rcases h with (((h | h | h | h | h | h) | h) | h) | h
    · exact absurd h (ne_of_getElem (str "  time_dimensions:")
        (str "- name: " ++ t.name) 0 ' ' '-' rfl rfl (by decide))
    · exact absurd h (ne_of_getElem (str "  time_dimensions:")
        (str "  description: " ++ t.description) 2 't' 'd' rfl rfl
        (by decide))
    · exact absurd h (by decide)
    · exact absurd h (ne_of_getElem (str "  time_dimensions:")
        (str "    database: " ++ t.base_table.database) 2 't' ' '
        rfl rfl (by decide))
    · exact absurd h (ne_of_getElem (str "  time_dimensions:")
        (str "    schema: " ++ t.base_table.schema) 2 't' ' '
        rfl rfl (by decide))
    · exact absurd h (ne_of_getElem (str "  time_dimensions:")
        (str "    table: " ++ t.base_table.table) 2 't' ' '
        rfl rfl (by decide))
    · exact absurd h (not_mem_other_block (str "  time_dimensions:")
        (str "  dimensions:") (by decide) (by decide) (by decide)
        t.dimensions)
    · exact (mem_own_block _ _).mp h
    · exact absurd h (not_mem_other_block (str "  time_dimensions:")
        (str "  measures:") (by decide) (by decide) (by decide)
        t.measures)
  · intro h
    simp only [serializeTable, List.mem_append]
    exact Or.inl (Or.inr ((mem_own_block _ _).mpr h))
theorem measures_key_mem (t : TableEntry) :
    (str "  measures:") ∈ serializeTable t ↔ t.measures ≠ none := by
  constructor
  · intro h
    simp only [serializeTable, List.mem_append, List.mem_cons,
      List.not_mem_nil, or_false] at h
    rcases h with (((h | h | h | h | h | h) | h) | h) | h
    · exact absurd h (ne_of_getElem (str "  measures:")
        (str "- name: " ++ t.name) 0 ' ' '-' rfl rfl (by decide))
    · exact absurd h (ne_of_getElem (str "  measures:")
        (str "  description: " ++ t.description) 2 'm' 'd' rfl rfl
        (by decide))
    · exact absurd h (by decide)
    · exact absurd h (ne_of_getElem (str "  measures:")
        (str "    database: " ++ t.base_table.database) 2 'm' ' '
        rfl rfl (by decide))
    · exact absurd h (ne_of_getElem (str "  measures:")
        (str "    schema: " ++ t.base_table.schema) 2 'm' ' '
        rfl rfl (by decide))
    · exact absurd h (ne_of_getElem (str "  measures:")
        (str "    table: " ++ t.base_table.table) 2 'm' ' '
        rfl rfl (by decide))
    · exact absurd h (not_mem_other_block (str "  measures:")
        (str "  dimensions:") (by decide) (by decide) (by decide)
        t.dimensions)
    · exact absurd h (not_mem_other_block (str "  measures:")
        (str "  time_dimensions:") (by decide) (by decide) (by decide)
        t.time_dimensions)
    · exact (mem_own_block _ _).mp h
  · intro h
    simp only [serializeTable, List.mem_append]
    exact Or.inr ((mem_own_block _ _).mpr h)

/-- C6: in a built table entry each variant key is absent exactly when its
classified list is empty — the serialized output of the table contains the
key line exactly when the list is non-empty, and a present key carries
exactly the classified entries. -/
theorem empty_variant_lists_omitted (db sch tbl td : Str)
    (cols : List ClassInput) (t : TableEntry)
    (ht : t = buildTableEntry db sch tbl td cols) :
    (t.dimensions = none ↔ (classify cols).dimensions = []) ∧
    ((classify cols).dimensions ≠ [] →
      t.dimensions = some ((classify cols).dimensions)) ∧
    ((str "  dimensions:") ∈ serializeTable t ↔
      (classify cols).dimensions ≠ []) ∧
    (t.time_dimensions = none ↔ (classify cols).time_dimensions = []) ∧
    ((classify cols).time_dimensions ≠ [] →
      t.time_dimensions = some ((classify cols).time_dimensions)) ∧
    ((str "  time_dimensions:") ∈ serializeTable t ↔
      (classify cols).time_dimensions ≠ []) ∧
    (t.measures = none ↔ (classify cols).measures = []) ∧
    ((classify cols).measures ≠ [] →
      t.measures = some ((classify cols).measures)) ∧
    ((str "  measures:") ∈ serializeTable t ↔
      (classify cols).measures ≠ []) := by
  subst ht
  have hd : (buildTableEntry db sch tbl td cols).dimensions = none ↔
      (classify cols).dimensions = [] := by
    by_cases hP : (classify cols).dimensions = [] <;>
      simp [buildTableEntry, hP]
  have htm : (buildTableEntry db sch tbl td cols).time_dimensions = none ↔
      (classify cols).time_dimensions = [] := by
    by_cases hP : (classify cols).time_dimensions = [] <;>
      simp [buildTableEntry, hP]
  have hm : (buildTableEntry db sch tbl td cols).measures = none ↔
      (classify cols).measures = [] := by
    by_cases hP : (classify cols).measures = [] <;>
      simp [buildTableEntry, hP]
  refine ⟨hd, ?_, ?_, htm, ?_, ?_, hm, ?_, ?_⟩
  · intro h
    simp [buildTableEntry, h]
  · exact (dims_key_mem _).trans (not_congr hd)
  · intro h
    simp [buildTableEntry, h]
  · exact (time_key_mem _).trans (not_congr htm)
  · intro h
    simp [buildTableEntry, h]
  · exact (measures_key_mem _).trans (not_congr hm)

theorem empty_variant_lists_omitted_witness :
    (buildTableEntry (str "DB") (str "SCH") (str "T") (str "td") sampleCols =
      buildTableEntry (str "DB") (str "SCH") (str "T") (str "td")
        sampleCols) ∧
    (((buildTableEntry (str "DB") (str "SCH") (str "T") (str "td")
        sampleCols).dimensions = none ↔
      (classify sampleCols).dimensions = []) ∧
     ((classify sampleCols).dimensions ≠ [] →
       (buildTableEntry (str "DB") (str "SCH") (str "T") (str "td")
         sampleCols).dimensions = some ((classify sampleCols).dimensions)) ∧
     ((str "  dimensions:") ∈ serializeTable
        (buildTableEntry (str "DB") (str "SCH") (str "T") (str "td")
          sampleCols) ↔
       (classify sampleCols).dimensions ≠ []) ∧
     ((buildTableEntry (str "DB") (str "SCH") (str "T") (str "td")
        sampleCols).time_dimensions = none ↔
      (classify sampleCols).time_dimensions = []) ∧
     ((classify sampleCols).time_dimensions ≠ [] →
       (buildTableEntry (str "DB") (str "SCH") (str "T") (str "td")
         sampleCols).time_dimensions =
         some ((classify sampleCols).time_dimensions)) ∧
     ((str "  time_dimensions:") ∈ serializeTable
        (buildTableEntry (str "DB") (str "SCH") (str "T") (str "td")
          sampleCols) ↔
       (classify sampleCols).time_dimensions ≠ []) ∧
     ((buildTableEntry (str "DB") (str "SCH") (str "T") (str "td")
        sampleCols).measures = none ↔
      (classify sampleCols).measures = []) ∧
     ((classify sampleCols).measures ≠ [] →
       (buildTableEntry (str "DB") (str "SCH") (str "T") (str "td")
         sampleCols).measures = some ((classify sampleCols).measures)) ∧
     ((str "  measures:") ∈ serializeTable
        (buildTableEntry (str "DB") (str "SCH") (str "T") (str "td")
          sampleCols) ↔
       (classify sampleCols).measures ≠ [])) :=
  ⟨rfl,
   empty_variant_lists_omitted (str "DB") (str "SCH") (str "T") (str "td")
     sampleCols
     (buildTableEntry (str "DB") (str "SCH") (str "T") (str "td") sampleCols)
     rfl⟩

/-! ### Round-trip lemmas -/

theorem take_len_append (l v : List α) : (l ++ v).take l.length = l := by
  induction l with
  | nil => simp
  | cons a t ih => simp [ih]

theorem drop_len_append (l v : List α) : (l ++ v).drop l.length = v := by
  induction l with
  | nil => simp
  | cons a t ih => simp [ih]

theorem parseKV_append (pre v : Str) : parseKV pre (pre ++ v) = some v := by
  simp [parseKV, take_len_append, drop_len_append]

theorem lineStarts_append (pre v : Str) :
    lineStarts pre (pre ++ v) = true := by
  simp [lineStarts, take_len_append]

theorem lineStarts_false_head (pre l : Str) (a b : Char)
    (hp : pre[0]? = some a) (hl : l[0]? = some b) (hab : a ≠ b) :
    lineStarts pre l = false := by
  rw [lineStarts, decide_eq_false_iff_not]
  intro h
  have h0 : (l.take pre.length)[0]? = some a := by rw [h]; exact hp
  cases l with
  | nil => simp at hl
  | cons x xs =>
    have hlen : 0 < pre.length := by
      cases pre with
      | nil => simp at hp
      | cons y ys => simp
    obtain ⟨n, hn⟩ : ∃ n, pre.length = n + 1 := ⟨pre.length - 1, by omega⟩
    rw [hn, List.take_succ_cons] at h0
    simp only [List.getElem?_cons_zero, Option.some.injEq] at h0 hl
    exact hab (h0 ▸ hl ▸ rfl)

theorem head_append_of_head (A B : List α) (x : α) (h : A.head? = some x) :
    (A ++ B).head? = some x := by
  cases A with
  | nil => simp at h
  | cons a t => simpa using h

theorem parseColumn_ser (ind : Str) (c : ColumnEntry) (rest : List Str) :
    parseColumn ind (serializeColumn ind c ++ rest) = some (c, rest) := by
  simp only [serializeColumn, List.cons_append, List.nil_append,
    parseColumn, parseKV_append]

theorem parseColumns_ser (ind : Str) (cs : List ColumnEntry)
    (rest : List Str) (fuel : Nat) (hf : cs.length ≤ fuel)
    (hrest : ∀ l ∈ rest.head?,
      lineStarts (ind ++ str "- name: ") l = false) :
    parseColumns ind fuel (cs.flatMap (serializeColumn ind) ++ rest) =
      some (cs, rest) := by
  induction cs generalizing fuel with
  | nil =>
    simp only [List.flatMap_nil, List.nil_append]
    cases fuel with
    | zero => rfl
    | succ f =>
      cases hr : rest.head? with
      | none => simp [parseColumns, hr]
      | some l =>
        have hls := hrest l (by rw [hr]; rfl)
        simp [parseColumns, hr, hls]
  | cons c cs ih =>
    cases fuel with
    | zero => simp at hf
    | succ f =>
      rw [List.flatMap_cons, List.append_assoc]
      have hhead : (serializeColumn ind c ++
          (cs.flatMap (serializeColumn ind) ++ rest)).head? =
          some (ind ++ str "- name: " ++ c.name) :=
        head_append_of_head _ _ _ rfl
      rw [parseColumns, hhead]
      have hfc : cs.length ≤ f := by
        simp only [List.length_cons] at hf
        omega
      simp [lineStarts_append, parseColumn_ser, ih f hfc]
      rw [← List.append_assoc]
      exact lineStarts_append _ _

theorem parseOptBlock_ser (key : Str) (b : Option (List ColumnEntry))
    (tail : List Str) (fuel : Nat)
    (hf : (b.getD []).length ≤ fuel)
    (htail : ∀ l ∈ tail.head?, l ≠ key ∧
      lineStarts (str "  " ++ str "- name: ") l = false) :
    parseOptBlock key fuel (serializeBlock key b ++ tail) =
      some (b, tail) := by
  cases b with
  | none =>
    simp only [serializeBlock, List.nil_append]
    cases tail with
    | nil => rfl
    | cons l ls =>
      have h := htail l (by simp)
      simp [parseOptBlock, h.1]
  | some cs =>
    simp only [serializeBlock, List.cons_append]
    have hcs : cs.length ≤ fuel := by simpa using hf
    have hrest : ∀ l ∈ tail.head?,
        lineStarts ((str "  ") ++ str "- name: ") l = false :=
      fun l hl => (htail l hl).2
    simp [parseOptBlock, parseColumns_ser (str "  ") cs tail fuel hcs hrest]

theorem block_head_cases (key2 : Str) (b : Option (List ColumnEntry))
    (tail : List Str) (l : Str)
    (hl : l ∈ (serializeBlock key2 b ++ tail).head?) :
    l = key2 ∨ l ∈ tail.head? := by
  cases b with
  | none =>
    simp only [serializeBlock, List.nil_append] at hl
    exact Or.inr hl
  | some cs =>
    simp only [serializeBlock, List.cons_append, List.head?_cons,
      Option.mem_def, Option.some.injEq] at hl
    exact Or.inl hl.symm

theorem parseTable_ser (t : TableEntry) (rest : List Str) (fuel : Nat)
    (hf : colCountT t ≤ fuel)
    (hrest : ∀ l ∈ rest.head?, l ≠ str "  dimensions:" ∧
      l ≠ str "  time_dimensions:" ∧ l ≠ str "  measures:" ∧
      lineStarts (str "  " ++ str "- name: ") l = false) :
    parseTable fuel (serializeTable t ++ rest) = some (t, rest) := by
  unfold colCountT at hf
  have hf1 : (t.dimensions.getD []).length ≤ fuel := by omega
  have hf2 : (t.time_dimensions.getD []).length ≤ fuel := by omega
  have hf3 : (t.measures.getD []).length ≤ fuel := by omega
  have h3 : ∀ l ∈ rest.head?, l ≠ str "  measures:" ∧
      lineStarts (str "  " ++ str "- name: ") l = false :=
    fun l hl => ⟨(hrest l hl).2.2.1, (hrest l hl).2.2.2⟩
  have h2 : ∀ l ∈ (serializeBlock (str "  measures:") t.measures ++
      rest).head?, l ≠ str "  time_dimensions:" ∧
      lineStarts (str "  " ++ str "- name: ") l = false := by
    intro l hl
    rcases block_head_cases _ _ _ l hl with rfl | hl2
    · exact ⟨by decide, by decide⟩
    · exact ⟨(hrest l hl2).2.1, (hrest l hl2).2.2.2⟩
  have h1 : ∀ l ∈ (serializeBlock (str "  time_dimensions:")
      t.time_dimensions ++
      (serializeBlock (str "  measures:") t.measures ++ rest)).head?,
      l ≠ str "  dimensions:" ∧
      lineStarts (str "  " ++ str "- name: ") l = false := by
    intro l hl
    rcases block_head_cases _ _ _ l hl with rfl | hl2
    · exact ⟨by decide, by decide⟩
    · rcases block_head_cases _ _ _ l hl2 with rfl | hl3
      · exact ⟨by decide, by decide⟩
      · exact ⟨(hrest l hl3).1, (hrest l hl3).2.2.2⟩
  simp only [serializeTable, List.cons_append, List.nil_append,
    List.append_assoc]
  rw [parseTable]
  simp only [parseKV_append,
    parseOptBlock_ser (str "  dimensions:") t.dimensions _ fuel hf1 h1,
    parseOptBlock_ser (str "  time_dimensions:") t.time_dimensions _ fuel
      hf2 h2,
    parseOptBlock_ser (str "  measures:") t.measures _ fuel hf3 h3,
    if_pos rfl]
  simp

theorem flatMap_serializeColumn_length (ind : Str)
    (cs : List ColumnEntry) :
    (cs.flatMap (serializeColumn ind)).length = 4 * cs.length := by
  induction cs with
  | nil => simp
  | cons c cs ih =>
    simp only [List.flatMap_cons, List.length_append, ih, serializeColumn,
      List.length_cons, List.length_nil]
    omega

theorem serializeBlock_length_ge (key : Str)
    (b : Option (List ColumnEntry)) :
    (b.getD []).length ≤ (serializeBlock key b).length := by
  cases b with
  | none => simp [serializeBlock]
  | some cs =>
    simp only [serializeBlock, Option.getD_some, List.length_cons,
      flatMap_serializeColumn_length]
    omega

theorem serializeTable_length_ge (t : TableEntry) :
    1 + colCountT t ≤ (serializeTable t).length := by
  have h1 := serializeBlock_length_ge (str "  dimensions:") t.dimensions
  have h2 := serializeBlock_length_ge (str "  time_dimensions:")
    t.time_dimensions
  have h3 := serializeBlock_length_ge (str "  measures:") t.measures
  unfold colCountT
  simp only [serializeTable, List.length_append, List.length_cons,
    List.length_nil]
  omega

theorem tablesFuel_le (ts : List TableEntry) :
    tablesFuel ts ≤ (ts.flatMap serializeTable).length := by
  induction ts with
  | nil => simp [tablesFuel]
  | cons t ts ih =>
    have := serializeTable_length_ge t
    simp only [tablesFuel, List.flatMap_cons, List.length_append]
    omega

theorem tables_rest_head (ts : List TableEntry) (rest : List Str)
    (hrest2 : ∀ l ∈ rest.head?, l ≠ str "  dimensions:" ∧
      l ≠ str "  time_dimensions:" ∧ l ≠ str "  measures:" ∧
      lineStarts (str "  " ++ str "- name: ") l = false) :
    ∀ l ∈ (ts.flatMap serializeTable ++ rest).head?,
      l ≠ str "  dimensions:" ∧ l ≠ str "  time_dimensions:" ∧
      l ≠ str "  measures:" ∧
      lineStarts (str "  " ++ str "- name: ") l = false := by
  intro l hl
  cases ts with
  | nil =>
    simp only [List.flatMap_nil, List.nil_append] at hl
    exact hrest2 l hl
  | cons t2 ts2 =>
    rw [List.flatMap_cons, List.append_assoc,
      head_append_of_head (serializeTable t2) _
        (str "- name: " ++ t2.name) rfl] at hl
    rw [Option.mem_def] at hl
    obtain rfl := Option.some.inj hl
    refine ⟨?_, ?_, ?_, ?_⟩
    · exact ne_of_getElem _ _ 0 '-' ' ' rfl rfl (by decide)
    · exact ne_of_getElem _ _ 0 '-' ' ' rfl rfl (by decide)
    · exact ne_of_getElem _ _ 0 '-' ' ' rfl rfl (by decide)
    · exact lineStarts_false_head _ _ ' ' '-' rfl rfl (by decide)

theorem parseTables_ser (ts : List TableEntry) (rest : List Str)
    (fuel : Nat) (hf : tablesFuel ts ≤ fuel)
    (hrest1 : ∀ l ∈ rest.head?, lineStarts (str "- name: ") l = false)
    (hrest2 : ∀ l ∈ rest.head?, l ≠ str "  dimensions:" ∧
      l ≠ str "  time_dimensions:" ∧ l ≠ str "  measures:" ∧
      lineStarts (str "  " ++ str "- name: ") l = false) :
    parseTables fuel (ts.flatMap serializeTable ++ rest) =
      some (ts, rest) := by
  induction ts generalizing fuel with
  | nil =>
    simp only [List.flatMap_nil, List.nil_append]
    cases fuel with
    | zero => rfl
    | succ f =>
      cases hr : rest.head? with
      | none => simp [parseTables, hr]
      | some l =>
        have hls := hrest1 l (by rw [hr]; rfl)
        simp [parseTables, hr, hls]
  | cons t ts ih =>
    cases fuel with
    | zero => simp [tablesFuel] at hf
    | succ f =>
      rw [List.flatMap_cons, List.append_assoc]
      have hhead : (serializeTable t ++
          (ts.flatMap serializeTable ++ rest)).head? =
          some (str "- name: " ++ t.name) :=
        head_append_of_head _ _ _ rfl
      rw [parseTables, hhead]
      simp only [tablesFuel] at hf
      have hfin : parseTable (f + 1)
          (serializeTable t ++ (ts.flatMap serializeTable ++ rest)) =
          some (t, ts.flatMap serializeTable ++ rest) :=
        parseTable_ser t _ (f + 1) (by omega)
          (tables_rest_head ts rest hrest2)
      have hih : parseTables f (ts.flatMap serializeTable ++ rest) =
          some (ts, rest) := ih f (by omega)
      simp [lineStarts_append, hfin, hih]

theorem parseModel_ser (m : SemanticModel) :
    parseModel (serializeModel m) = some m := by
  by_cases hm : m.tables = []
  · simp only [serializeModel, hm, if_pos, List.cons_append,
      List.nil_append]
    rw [parseModel]
    simp only [parseKV_append, if_true]
    rw [← hm]
  · simp only [serializeModel, if_neg hm, List.cons_append,
      List.nil_append]
    rw [parseModel]
    simp only [parseKV_append, reduceIte]
    have hpt : parseTables (m.tables.flatMap serializeTable).length
        (m.tables.flatMap serializeTable ++ []) = some (m.tables, []) :=
      parseTables_ser m.tables [] _ (tablesFuel_le m.tables) (by simp)
        (by simp)
    rw [List.append_nil] at hpt
    rw [hpt, if_neg (show str "tables:" ≠ str "tables: []" by decide)]

theorem splitLines_noNL (l : Str) (h : '\n' ∉ l) : splitLines l = [l] := by
  induction l with
  | nil => rfl
  | cons c rest ih =>
    have hc : c ≠ '\n' := fun hcc => h (hcc ▸ List.mem_cons_self c rest)
    have hr : '\n' ∉ rest := fun hm => h (List.mem_cons_of_mem c hm)
    simp [splitLines, hc, ih hr]

theorem splitLines_append_nl (l t : Str) (h : '\n' ∉ l) :
    splitLines (l ++ '\n' :: t) = l :: splitLines t := by
  induction l with
  | nil => simp [splitLines]
  | cons c rest ih =>
    have hc : c ≠ '\n' := fun hcc => h (hcc ▸ List.mem_cons_self c rest)
    have hr : '\n' ∉ rest := fun hm => h (List.mem_cons_of_mem c hm)
    simp [splitLines, hc, ih hr]

theorem splitLines_joinLines (ls : List Str) (hne : ls ≠ [])
    (h : ∀ l ∈ ls, '\n' ∉ l) : splitLines (joinLines ls) = ls := by
  induction ls with
  | nil => exact absurd rfl hne
  | cons l ls ih =>
    cases ls with
    | nil => exact splitLines_noNL l (h l (List.mem_cons_self l []))
    | cons l2 ls2 =>
      have hj : joinLines (l :: l2 :: ls2) =
          l ++ '\n' :: joinLines (l2 :: ls2) := rfl
      rw [hj, splitLines_append_nl l _ (h l (List.mem_cons_self l _)),
        ih (by simp) (fun x hx => h x (List.mem_cons_of_mem _ hx))]

theorem noNL_append (a b : Str) (ha : '\n' ∉ a) (hb : '\n' ∉ b) :
    '\n' ∉ a ++ b := by
  intro hm
  rcases List.mem_append.mp hm with hx | hx
  · exact ha hx
  · exact hb hx

theorem serializeColumn_noNL (ind : Str) (c : ColumnEntry)
    (hind : '\n' ∉ ind) (h : entryNoNL c) :
    ∀ l ∈ serializeColumn ind c, '\n' ∉ l := by
  intro l hl
  obtain ⟨h1, h2, h3, h4⟩ := h
  simp only [serializeColumn, List.mem_cons, List.not_mem_nil, or_false]
    at hl
  rcases hl with rfl | rfl | rfl | rfl
  · exact noNL_append _ _ (noNL_append _ _ hind (by decide)) h1
  · exact noNL_append _ _ (noNL_append _ _ hind (by decide)) h2
  · exact noNL_append _ _ (noNL_append _ _ hind (by decide)) h3
  · exact noNL_append _ _ (noNL_append _ _ hind (by decide)) h4

theorem serializeBlock_noNL (key : Str) (b : Option (List ColumnEntry))
    (hkey : '\n' ∉ key) (h : blockNoNL b) :
    ∀ l ∈ serializeBlock key b, '\n' ∉ l := by
  intro l hl
  cases b with
  | none => simp [serializeBlock] at hl
  | some cs =>
    simp only [serializeBlock, List.mem_cons] at hl
    rcases hl with rfl | hl
    · exact hkey
    · simp only [List.mem_flatMap] at hl
      obtain ⟨c, hc, hlc⟩ := hl
      exact serializeColumn_noNL _ c (by decide) (h c (by simpa using hc))
        l hlc

theorem serializeTable_noNL (t : TableEntry) (h : tableNoNL t) :
    ∀ l ∈ serializeTable t, '\n' ∉ l := by
  obtain ⟨h1, h2, h3, h4, h5, hb1, hb2, hb3⟩ := h
  intro l hl
  simp only [serializeTable, List.mem_append, List.mem_cons,
    List.not_mem_nil, or_false] at hl
  rcases hl with (((rfl | rfl | rfl | rfl | rfl | rfl) | hl) | hl) | hl
  · exact noNL_append _ _ (by decide) h1
  · exact noNL_append _ _ (by decide) h2
  · decide
  · exact noNL_append _ _ (by decide) h3
  · exact noNL_append _ _ (by decide) h4
  · exact noNL_append _ _ (by decide) h5
  · exact serializeBlock_noNL _ _ (by decide) hb1 l hl
  · exact serializeBlock_noNL _ _ (by decide) hb2 l hl
  · exact serializeBlock_noNL _ _ (by decide) hb3 l hl

theorem serializeModel_noNL (m : SemanticModel) (h : modelNoNL m) :
    ∀ l ∈ serializeModel m, '\n' ∉ l := by
  obtain ⟨h1, h2, h3⟩ := h
  intro l hl
  simp only [serializeModel, List.mem_append, List.mem_cons,
    List.not_mem_nil, or_false] at hl
  rcases hl with (rfl | rfl) | hl
  · exact noNL_append _ _ (by decide) h1
  · exact noNL_append _ _ (by decide) h2
  · by_cases hm : m.tables = []
    · rw [if_pos hm] at hl
      simp only [List.mem_cons, List.not_mem_nil, or_false] at hl
      subst hl
      decide
    · rw [if_neg hm] at hl
      simp only [List.mem_cons] at hl
      rcases hl with rfl | hl
      · decide
      · simp only [List.mem_flatMap] at hl
        obtain ⟨t, ht, hlt⟩ := hl
        exact serializeTable_noNL t (h3 t ht) l hlt

theorem serializeModel_ne_nil (m : SemanticModel) :
    serializeModel m ≠ [] := by
  simp [serializeModel]

/-- C9: for every model whose strings contain no newline (any such value
would break the line structure of the configuration format), parsing the
serialized text back yields the same document, so re-serializing the
parsed document reproduces the original text byte for byte. -/
theorem dump_load_round_trip (m : SemanticModel) (h : modelNoNL m) :
    loadModel (dumpModel m) = some m ∧
    Option.map dumpModel (loadModel (dumpModel m)) =
      some (dumpModel m) := by
  have h1 : splitLines (joinLines (serializeModel m)) = serializeModel m :=
    splitLines_joinLines _ (serializeModel_ne_nil m)
      (serializeModel_noNL m h)
  have h2 := parseModel_ser m
  constructor
  · rw [loadModel, dumpModel, h1, h2]
  · rw [loadModel, dumpModel, h1, h2]
    rfl

theorem sampleModel_noNL : modelNoNL sampleModel := by
  refine ⟨by decide, by decide, ?_⟩
  intro t ht
  have hts : t = sampleTable := by simpa [sampleModel] using ht
  subst hts
  refine ⟨by decide, by decide, by decide, by decide, by decide,
    ?_, ?_, ?_⟩
  · intro e he
    have hee : e = sampleDim := by simpa [sampleTable] using he
    subst hee
    exact ⟨by decide, by decide, by decide, by decide⟩
  · intro e he
    simp [sampleTable] at he
  · intro e he
    have hee : e = sampleMeasure := by simpa [sampleTable] using he
    subst hee
    exact ⟨by decide, by decide, by decide, by decide⟩

theorem dump_load_round_trip_witness :
    modelNoNL sampleModel ∧
    (loadModel (dumpModel sampleModel) = some sampleModel ∧
     Option.map dumpModel (loadModel (dumpModel sampleModel)) =
       some (dumpModel sampleModel)) :=
  ⟨sampleModel_noNL, dump_load_round_trip sampleModel sampleModel_noNL⟩
